import Mathlib

/-!
Verification of the HBase scan node (`be/src/exec/hbase-scan-node.h`).

The repository ships only the class header; the method bodies live in a
`.cc` file that is not part of the sources.  The data model below therefore
follows the header (member names, `CmpColPos`, `ROW_KEY`, `SKIP_COLUMN`,
`num_errors_`, `sorted_non_key_slots_`, `sorted_cols_`, `row_key_slot_`,
`tuple_buffer_size_`, `WriteTextSlot`) while the behaviour of `Prepare`,
`Open`, `GetNext` and `Close` is modelled from the specification's
description of the scan lifecycle.
-/

namespace Impala

/-- An HBase column identifier: a (family, qualifier) string pair. -/
abbrev FamQual := String × String

/-- Declared type of a slot.  The spec lists integer, floating point,
boolean, string, timestamp...; we model a representative subset. -/
inductive SlotType where
  | tInt
  | tBool
  | tString
deriving DecidableEq, Repr

/-- A slot value in a tuple; `null` is the null/invalid marker used when a
value is absent or failed to convert. -/
inductive SlotVal where
  | null
  | intV (i : Int)
  | boolV (b : Bool)
  | strV (s : String)
deriving DecidableEq, Repr

/-- A slot descriptor: target slot position `id` in the tuple layout, the
column position `col_pos` in the table metadata (0 is the row key), and the
declared type. -/
structure SlotDescriptor where
  id : Nat
  col_pos : Nat
  ty : SlotType
deriving DecidableEq, Repr

/-- Column 0 in the Impala metadata refers to the HBase row key. -/
def ROW_KEY : Nat := 0

/-- Sentinel for a cell bound to no requested column. -/
def SKIP_COLUMN : Int := -1

/-- Compare two slots based on their column position, to sort them
ascending (header: `CmpColPos`). -/
def CmpColPos (a b : SlotDescriptor) : Bool := decide (a.col_pos < b.col_pos)

/-- Insert a slot into a list already sorted ascending by `CmpColPos`. -/
def orderedInsertSlot (s : SlotDescriptor) : List SlotDescriptor → List SlotDescriptor
  | [] => [s]
  | t :: ts => if CmpColPos t s then t :: orderedInsertSlot s ts else s :: t :: ts

/-- Sort a slot list ascending by `CmpColPos` (insertion sort). -/
def sortByColPos : List SlotDescriptor → List SlotDescriptor
  | [] => []
  | s :: ss => orderedInsertSlot s (sortByColPos ss)

/-- Error taxonomy of the spec (`ConversionError` is recovered locally and
so never appears as a call result). -/
inductive Err where
  | SchemaError
  | InvalidStateError
  | ScanUnavailableError
  | ResourceExhaustedError
deriving DecidableEq, Repr

/-- Strict lexicographic order on (family, qualifier) pairs: family first,
then qualifier. -/
def lexLt (a b : FamQual) : Prop := a.1 < b.1 ∨ (a.1 = b.1 ∧ a.2 < b.2)

instance (a b : FamQual) : Decidable (lexLt a b) := by
  unfold lexLt
  exact inferInstance

/-- The (family, qualifier) pair a slot resolves to in the table metadata
(`cols` is indexed by column position; position 0 is the row-key
pseudo-column). -/
def colOf (cols : List FamQual) (s : SlotDescriptor) : FamQual :=
  cols.getD s.col_pos ("", "")

/-- State established by `Prepare` (header members of `HBaseScanNode`). -/
structure PreparedState where
  sorted_non_key_slots_ : List SlotDescriptor
  sorted_cols_ : List FamQual
  row_key_slot_ : Option SlotDescriptor
  layout_size : Nat
  tuple_size : Nat
  capacity : Nat
  tuple_buffer_size_ : Nat
deriving DecidableEq, Repr

/-- One decoded cell: a (family, qualifier) pair and the raw textual value. -/
abbrev Cell := FamQual × String

/-- All cells sharing one row key, as delimited by the cell scanner. -/
structure RowCells where
  key : String
  cells : List Cell
deriving DecidableEq, Repr

/-- Modelled from the spec: a scan range is an opaque unit of work; the core
only consumes the rows the cell scanner yields for it, so a range is
interpreted by that row sequence. -/
abbrev ScanRange := List RowCells

/-- Lifecycle phases of the scan node. -/
inductive Phase where
  | created
  | prepared
  | opened
  | closed
deriving DecidableEq, Repr

/-- The scan node state (header members plus lifecycle phase). -/
structure HBaseScanNode where
  phase : Phase
  prep : Option PreparedState
  scan_range_vector_ : List ScanRange
  rows : List RowCells
  num_errors_ : Nat
  pool_allocated : Bool
deriving DecidableEq, Repr

/-- A freshly constructed scan node: nothing prepared, no scan ranges, the
conversion error counter starts at zero. -/
def mkNode : HBaseScanNode :=
  { phase := .created, prep := none, scan_range_vector_ := [], rows := [],
    num_errors_ := 0, pool_allocated := false }

/-- The `PreparedState` produced by a successful `Prepare`: non-key slots
sorted by `CmpColPos`, `sorted_cols_` aligned with them, the row-key slot
separated out, batch capacity derived from the configured maximum batch
size in bytes and the per-tuple size. -/
def preparedOf (cols : List FamQual) (slots : List SlotDescriptor)
    (layout_size tuple_size batch_size : Nat) : PreparedState :=
  { sorted_non_key_slots_ :=
      sortByColPos (slots.filter (fun sl => decide (sl.col_pos ≠ ROW_KEY))),
    sorted_cols_ :=
      (sortByColPos (slots.filter (fun sl => decide (sl.col_pos ≠ ROW_KEY)))).map
        (colOf cols),
    row_key_slot_ := slots.find? (fun sl => decide (sl.col_pos = ROW_KEY)),
    layout_size := layout_size,
    tuple_size := tuple_size,
    capacity := batch_size / tuple_size,
    tuple_buffer_size_ := (batch_size / tuple_size) * tuple_size }

/-- Modelled from the spec: `HBaseScanNode::Prepare` (body not in the
sources).  Resolves each requested slot against the table metadata
(`SchemaError` if a slot cannot be mapped or the tuple size is not
computable), separates the row-key binding from the non-key bindings,
sorts the latter with `CmpColPos`, fails with `SchemaError` when two
requested slots collide on the same column, and derives the batch capacity
from the configured maximum batch size. -/
def HBaseScanNode.Prepare (cols : List FamQual) (slots : List SlotDescriptor)
    (layout_size tuple_size batch_size : Nat) (s : HBaseScanNode) :
    Except Err HBaseScanNode :=
  if s.phase ≠ .created then .error .InvalidStateError
  else if tuple_size = 0 then .error .SchemaError
  else if (slots.all (fun sl => decide (sl.col_pos < cols.length))) = false then
    .error .SchemaError
  else if (slots.map (fun sl => sl.col_pos)).Nodup then
    .ok { s with phase := .prepared,
                 prep := some (preparedOf cols slots layout_size tuple_size batch_size) }
  else .error .SchemaError

/-- Modelled from the spec: `HBaseScanNode::SetScanRange` appends pending
scan-range work; it is a caller error once scanning has started. -/
def HBaseScanNode.SetScanRange (r : ScanRange) (s : HBaseScanNode) :
    Except Err HBaseScanNode :=
  if s.phase = .created ∨ s.phase = .prepared then
    .ok { s with scan_range_vector_ := s.scan_range_vector_ ++ [r] }
  else .error .InvalidStateError

/-- Modelled from the spec: `HBaseScanNode::Open` (body not in the
sources).  Requires a prepared node, fails with `ScanUnavailableError` when
the remote store cannot be reached, and starts the cell scanner over the
accumulated scan ranges in list order. -/
def HBaseScanNode.Open (store_ok : Bool) (s : HBaseScanNode) :
    Except Err HBaseScanNode :=
  if s.phase ≠ .prepared then .error .InvalidStateError
  else if store_ok = false then .error .ScanUnavailableError
  else .ok { s with phase := .opened, rows := s.scan_range_vector_.flatten }

/-- The numeric value of a decimal digit character, `none` otherwise. -/
def digitVal? (c : Char) : Option Nat :=
  if c.isDigit then some (c.toNat - 48) else none

/-- Fold a digit sequence into a natural number; `none` on any non-digit. -/
def natOfDigitsAux : List Char → Nat → Option Nat
  | [], acc => some acc
  | c :: cs, acc =>
    match digitVal? c with
    | some d => natOfDigitsAux cs (acc * 10 + d)
    | none => none

/-- Parse a non-empty all-digit character list. -/
def natOfDigits : List Char → Option Nat
  | [] => none
  | cs => natOfDigitsAux cs 0

/-- Parse a signed decimal integer (canonical textual integer grammar:
optional leading minus, then one or more digits). -/
def strToInt? (s : String) : Option Int :=
  match s.data with
  | [] => none
  | c :: cs =>
    if c = '-' then (natOfDigits cs).map (fun n => -(n : Int))
    else (natOfDigits (c :: cs)).map (fun n => (n : Int))

/-- Modelled from the spec: the value converter.  Parses raw textual bytes
according to the target type's canonical grammar; returns `none` on
malformed input (a recovered, non-fatal condition). -/
def Convert (raw : String) (ty : SlotType) : Option SlotVal :=
  match ty with
  | .tString => some (.strV raw)
  | .tInt => (strToInt? raw).map .intV
  | .tBool =>
      if raw = "true" then some (.boolV true)
      else if raw = "false" then some (.boolV false)
      else none

/-- A tuple: one fixed-layout row instance, one value per slot position. -/
abbrev Tuple := List SlotVal

/-- Modelled from the spec and the header: `WriteTextSlot` writes a slot of
the current tuple from an HBase value containing text data, converting it
to the target type; on conversion failure the slot is set to the
null/invalid marker and the per-row error flag is raised. -/
def WriteTextSlot (t : Tuple) (slot : SlotDescriptor) (raw : String)
    (error_in_row : Bool) : Tuple × Bool :=
  match Convert raw slot.ty with
  | some v => (t.set slot.id v, error_in_row)
  | none => (t.set slot.id SlotVal.null, true)

/-- The column bindings walked against a row's cells: each sorted non-key
slot paired with its (family, qualifier). -/
def bindings (p : PreparedState) : List (SlotDescriptor × FamQual) :=
  p.sorted_non_key_slots_.zip p.sorted_cols_

/-- The slot bound to a cell's (family, qualifier), if any; `none` means
the cell is not bound to any requested column (`SKIP_COLUMN`). -/
def findSlotFor (bs : List (SlotDescriptor × FamQual)) (fq : FamQual) :
    Option SlotDescriptor :=
  (bs.find? (fun b => decide (b.2 = fq))).map (fun b => b.1)

/-- Process a single cell: skipped if bound to no requested column
(projection), otherwise converted into its slot. -/
def processCell (bs : List (SlotDescriptor × FamQual)) (acc : Tuple × Bool)
    (c : Cell) : Tuple × Bool :=
  match findSlotFor bs c.1 with
  | none => acc
  | some slot => WriteTextSlot acc.1 slot c.2 acc.2

/-- Process a row's cells in order against the column bindings. -/
def processCells (bs : List (SlotDescriptor × FamQual)) (cs : List Cell)
    (acc : Tuple × Bool) : Tuple × Bool :=
  cs.foldl (processCell bs) acc

/-- Modelled from the spec: conversion of one row into one tuple.  Starts
from a zeroed tuple, converts the matching cells, then writes the row key
through the same conversion path when a row-key binding exists.  Returns
the tuple and whether any conversion in the row failed. -/
def processRow (p : PreparedState) (r : RowCells) : Tuple × Bool :=
  let t0 : Tuple := List.replicate p.layout_size SlotVal.null
  let acc1 := processCells (bindings p) r.cells (t0, false)
  match p.row_key_slot_ with
  | some ks => WriteTextSlot acc1.1 ks r.key acc1.2
  | none => acc1

/-- Does the row contain at least one malformed targeted value (the spec's
per-row error condition)?  A targeted value is a cell bound to a requested
column, or the row key when a row-key binding exists. -/
def cellFails (bs : List (SlotDescriptor × FamQual)) (c : Cell) : Bool :=
  match findSlotFor bs c.1 with
  | some slot => (Convert c.2 slot.ty).isNone
  | none => false

/-- Whether a row contains at least one failed value conversion. -/
def rowHasMalformed (p : PreparedState) (r : RowCells) : Bool :=
  (match p.row_key_slot_ with
   | some ks => (Convert r.key ks.ty).isNone
   | none => false)
  || r.cells.any (cellFails (bindings p))

/-- Modelled from the spec: the `GetNext` filling loop.  Pulls rows while
any remain, converts each into a tuple, bumps the error counter once per
row that had a failed conversion, and stops (with `end_of_stream = false`)
once the batch reaches capacity.  Returns the batch, the new error count,
the `end_of_stream` flag and the unconsumed rows. -/
def getNextLoop (p : PreparedState) :
    Nat → Nat → List RowCells → List Tuple × Nat × Bool × List RowCells
  | _, ne, [] => ([], ne, true, [])
  | cap, ne, r :: rest =>
    let pr := processRow p r
    let ne2 := if pr.2 then ne + 1 else ne
    if cap ≤ 1 then ([pr.1], ne2, false, rest)
    else
      let res := getNextLoop p (cap - 1) ne2 rest
      (pr.1 :: res.1, res.2.1, res.2.2.1, res.2.2.2)

/-- Modelled from the spec: `HBaseScanNode::GetNext` (body not in the
sources).  Fails with `InvalidStateError` outside the opened phase and with
`ResourceExhaustedError` when the tuple buffer computed at Prepare cannot
hold a single tuple (row capacity zero, since the buffer is capacity ×
tuple size); otherwise fills the next row batch, never failing on
per-value conversion errors. -/
def HBaseScanNode.GetNext (s : HBaseScanNode) :
    Except Err (HBaseScanNode × List Tuple × Bool) :=
  match s.phase, s.prep with
  | .opened, some p =>
    if p.capacity = 0 then .error .ResourceExhaustedError
    else
      let res := getNextLoop p p.capacity s.num_errors_ s.rows
      .ok ({ s with rows := res.2.2.2, num_errors_ := res.2.1,
                    pool_allocated := true }, res.1, res.2.2.1)
  | _, _ => .error .InvalidStateError

/-- Result of `Close`: its status (always success), the node afterwards,
how many pool releases this call performed, and the error count it
reports. -/
structure CloseResult where
  status : Except Err Unit
  state : HBaseScanNode
  frees : Nat
  reported_errors : Nat
deriving Repr

/-- Modelled from the spec: `HBaseScanNode::Close` (body not in the
sources).  Releases the pooled memory if it is still held, reports the
final conversion error count as an observation, and always succeeds; a
repeated Close finds the pool already released. -/
def HBaseScanNode.Close (s : HBaseScanNode) : CloseResult :=
  { status := .ok (),
    state := { s with phase := .closed, pool_allocated := false },
    frees := if s.pool_allocated then 1 else 0,
    reported_errors := s.num_errors_ }

/-- The operations a caller can invoke on one scan node instance. -/
inductive NodeOp where
  | prepareOp (cols : List FamQual) (slots : List SlotDescriptor)
      (layout_size tuple_size batch_size : Nat)
  | setScanRangeOp (r : ScanRange)
  | openOp (store_ok : Bool)
  | getNextOp
  | closeOp

/-- The node state after one operation; a failing operation leaves the
state unchanged. -/
def stepNode (op : NodeOp) (s : HBaseScanNode) : HBaseScanNode :=
  match op with
  | .prepareOp cols slots l t b =>
      match HBaseScanNode.Prepare cols slots l t b s with
      | .ok s' => s'
      | .error _ => s
  | .setScanRangeOp r =>
      match HBaseScanNode.SetScanRange r s with
      | .ok s' => s'
      | .error _ => s
  | .openOp store_ok =>
      match HBaseScanNode.Open store_ok s with
      | .ok s' => s'
      | .error _ => s
  | .getNextOp =>
      match HBaseScanNode.GetNext s with
      | .ok res => res.1
      | .error _ => s
  | .closeOp => (HBaseScanNode.Close s).state

/-- Fixture (the spec's worked scenario): a catalog with the row-key
pseudo-column at position 0 followed by `cf:a` and `cf:b`. -/
def wCols : List FamQual := [("", ""), ("cf", "a"), ("cf", "b")]

/-- Fixture: requested slots — row key (string), `cf:a` (int), `cf:b`
(string). -/
def wSlots : List SlotDescriptor :=
  [⟨0, 0, .tString⟩, ⟨1, 1, .tInt⟩, ⟨2, 2, .tString⟩]

/-- Fixture: two requested slots that collide on the same column. -/
def wSlotsDup : List SlotDescriptor := [⟨1, 1, .tInt⟩, ⟨2, 1, .tString⟩]

/-- Fixture: a fully well-formed row. -/
def wRow1 : RowCells := ⟨"r1", [(("cf", "a"), "42"), (("cf", "b"), "x")]⟩

/-- Fixture: a row whose `cf:a` value is malformed for its int slot. -/
def wRow2 : RowCells := ⟨"r2", [(("cf", "a"), "bad"), (("cf", "b"), "y")]⟩

/-- Fixture: the node after Prepare on the scenario inputs (layout 3
slots, tuple size 8 bytes, batch size 64 bytes). -/
def wPrep1 : HBaseScanNode := stepNode (.prepareOp wCols wSlots 3 8 64) mkNode

/-- Fixture: the prepared state of the scenario. -/
def wQ : PreparedState := preparedOf wCols wSlots 3 8 64

/-- Fixture: the node after supplying one scan range of two rows. -/
def wSet1 : HBaseScanNode := stepNode (.setScanRangeOp [wRow1, wRow2]) wPrep1

/-- Fixture: the opened node over the two-row range. -/
def wOpen1 : HBaseScanNode := stepNode (.openOp true) wSet1

/-- Fixture: the node opened with zero scan ranges. -/
def wOpen0 : HBaseScanNode := stepNode (.openOp true) wPrep1

/-- `CmpColPos` decides strict comparison of column positions. -/
theorem CmpColPos_iff (a b : SlotDescriptor) :
    CmpColPos a b = true ↔ a.col_pos < b.col_pos := by
  simp [CmpColPos]

/-- Non-strict column-position order, the invariant of the sorted list. -/
def leCP (a b : SlotDescriptor) : Prop := a.col_pos ≤ b.col_pos

theorem orderedInsertSlot_perm (s : SlotDescriptor) (l : List SlotDescriptor) :
    List.Perm (orderedInsertSlot s l) (s :: l) := by
  induction l with
  | nil => simp [orderedInsertSlot]
  | cons t ts ih =>
    by_cases h : CmpColPos t s = true
    · simp only [orderedInsertSlot, if_pos h]
      exact List.Perm.trans (List.Perm.cons t ih) (List.Perm.swap s t ts)
    · simp only [orderedInsertSlot, if_neg h]
      exact List.Perm.refl _

theorem sortByColPos_perm (l : List SlotDescriptor) :
    List.Perm (sortByColPos l) l := by
  induction l with
  | nil => simp [sortByColPos]
  | cons s ss ih =>
    exact List.Perm.trans (orderedInsertSlot_perm s (sortByColPos ss))
      (List.Perm.cons s ih)

theorem orderedInsertSlot_pairwise (s : SlotDescriptor) (l : List SlotDescriptor)
    (h : l.Pairwise leCP) : (orderedInsertSlot s l).Pairwise leCP := by
  induction l with
  | nil => simp [orderedInsertSlot, leCP]
  | cons t ts ih =>
    rcases List.pairwise_cons.mp h with ⟨ht, hts⟩
    by_cases hc : CmpColPos t s = true
    · simp only [orderedInsertSlot, if_pos hc]
      refine List.pairwise_cons.mpr ⟨?_, ih hts⟩
      intro a ha
      have ha' : a ∈ s :: ts := (orderedInsertSlot_perm s ts).mem_iff.mp ha
      rcases List.mem_cons.mp ha' with rfl | hmem
      · exact le_of_lt ((CmpColPos_iff t a).mp hc)
      · exact ht a hmem
    · simp only [orderedInsertSlot, if_neg hc]
      refine List.pairwise_cons.mpr ⟨?_, h⟩
      intro a ha
      have hst : s.col_pos ≤ t.col_pos := by
        have := (CmpColPos_iff t s).not.mp hc
        omega
      rcases List.mem_cons.mp ha with rfl | hmem
      · exact hst
      · exact le_trans hst (ht a hmem)

theorem sortByColPos_pairwise (l : List SlotDescriptor) :
    (sortByColPos l).Pairwise leCP := by
  induction l with
  | nil => simp [sortByColPos]
  | cons s ss ih => exact orderedInsertSlot_pairwise s (sortByColPos ss) ih

/-- Everything a successful `Prepare` tells us: the phase was `created`,
the tuple size is computable, every slot maps to a known column, no two
slots collide, and the resulting node is exactly the prepared one. -/
theorem Prepare_ok_elim {cols : List FamQual} {slots : List SlotDescriptor}
    {layout_size tuple_size batch_size : Nat} {s s1 : HBaseScanNode}
    (h : HBaseScanNode.Prepare cols slots layout_size tuple_size batch_size s =
      .ok s1) :
    s.phase = .created ∧ tuple_size ≠ 0 ∧
    (slots.all (fun sl => decide (sl.col_pos < cols.length))) = true ∧
    (slots.map (fun sl => sl.col_pos)).Nodup ∧
    s1 = { s with phase := .prepared,
                  prep := some (preparedOf cols slots layout_size tuple_size
                    batch_size) } := by
  unfold HBaseScanNode.Prepare at h
  by_cases h1 : s.phase = Phase.created
  · rw [if_neg (by simp [h1])] at h
    by_cases h2 : tuple_size = 0
    · rw [if_pos h2] at h
      exact absurd h (by simp)
    · rw [if_neg h2] at h
      by_cases h3 : (slots.all (fun sl => decide (sl.col_pos < cols.length))) = false
      · rw [if_pos h3] at h
        exact absurd h (by simp)
      · rw [if_neg h3] at h
        by_cases h4 : (slots.map (fun sl => sl.col_pos)).Nodup
        · rw [if_pos h4] at h
          refine ⟨h1, h2, by simpa using h3, h4, ?_⟩
          exact (Except.ok.injEq _ _).mp h.symm
        · rw [if_neg h4] at h
          exact absurd h (by simp)
  · rw [if_pos (by simp [h1])] at h
    exact absurd h (by simp)

/-- Everything a successful `Open` tells us. -/
theorem Open_ok_elim {store_ok : Bool} {s s2 : HBaseScanNode}
    (h : HBaseScanNode.Open store_ok s = .ok s2) :
    s.phase = .prepared ∧ store_ok = true ∧
    s2 = { s with phase := .opened, rows := s.scan_range_vector_.flatten } := by
  unfold HBaseScanNode.Open at h
  by_cases h1 : s.phase = Phase.prepared
  · rw [if_neg (by simp [h1])] at h
    by_cases h2 : store_ok = false
    · rw [if_pos h2] at h
      exact absurd h (by simp)
    · rw [if_neg h2] at h
      refine ⟨h1, by simpa using h2, ?_⟩
      exact (Except.ok.injEq _ _).mp h.symm
  · rw [if_pos (by simp [h1])] at h
    exact absurd h (by simp)

/-- Writing one slot never changes the tuple's length. -/
theorem WriteTextSlot_length (t : Tuple) (slot : SlotDescriptor) (raw : String)
    (e : Bool) : ((WriteTextSlot t slot raw e).1).length = t.length := by
  unfold WriteTextSlot
  cases Convert raw slot.ty <;> simp

/-- Processing cells never changes the tuple's length. -/
theorem processCells_length (bs : List (SlotDescriptor × FamQual))
    (cs : List Cell) : ∀ (t : Tuple) (e : Bool),
    ((processCells bs cs (t, e)).1).length = t.length := by
  induction cs with
  | nil => intro t e; simp [processCells]
  | cons c cs ih =>
    intro t e
    simp only [processCells, List.foldl_cons]
    cases hf : findSlotFor bs c.1 with
    | none =>
      simp only [processCell, hf]
      exact ih t e
    | some slot =>
      simp only [processCell, hf]
      cases hc : Convert c.2 slot.ty with
      | none =>
        simp only [WriteTextSlot, hc]
        have := ih (t.set slot.id SlotVal.null) true
        simpa [processCells] using this
      | some v =>
        simp only [WriteTextSlot, hc]
        have := ih (t.set slot.id v) e
        simpa [processCells] using this

/-- The error flag after processing cells: the incoming flag or-ed with
whether any cell bound to a slot failed to convert. -/
theorem processCells_snd (bs : List (SlotDescriptor × FamQual))
    (cs : List Cell) : ∀ (t : Tuple) (e : Bool),
    (processCells bs cs (t, e)).2 = (e || cs.any (cellFails bs)) := by
  induction cs with
  | nil => intro t e; simp [processCells]
  | cons c cs ih =>
    intro t e
    simp only [processCells, List.foldl_cons, List.any_cons]
    cases hf : findSlotFor bs c.1 with
    | none =>
      simp only [processCell, hf, cellFails]
      have := ih t e
      simp only [processCells] at this
      simp [this]
    | some slot =>
      simp only [processCell, hf, cellFails]
      cases hc : Convert c.2 slot.ty with
      | none =>
        simp only [WriteTextSlot, hc]
        have := ih (t.set slot.id SlotVal.null) true
        simp only [processCells] at this
        simp [this]
      | some v =>
        simp only [WriteTextSlot, hc]
        have := ih (t.set slot.id v) e
        simp only [processCells] at this
        simp [this]

/-- A row's error flag is exactly "the row contained at least one failed
value conversion". -/
theorem processRow_snd (p : PreparedState) (r : RowCells) :
    (processRow p r).2 = rowHasMalformed p r := by
  unfold processRow rowHasMalformed
  cases hrk : p.row_key_slot_ with
  | none =>
    simp [processCells_snd]
  | some ks =>
    simp only [WriteTextSlot]
    cases hc : Convert r.key ks.ty with
    | none => simp
    | some v => simp [processCells_snd]

/-- A row's tuple has the layout's length. -/
theorem processRow_length (p : PreparedState) (r : RowCells) :
    ((processRow p r).1).length = p.layout_size := by
  unfold processRow
  cases hrk : p.row_key_slot_ with
  | none => simp [processCells_length]
  | some ks =>
    rw [WriteTextSlot_length]
    simp [processCells_length]

/-- Closed form of the `GetNext` filling loop for a positive capacity:
the batch is the first `cap` rows converted, the error counter grows by
the number of those rows that had a failed conversion, `end_of_stream`
holds exactly when the scanner ran out of rows before the batch filled,
and the remaining rows are the untaken ones. -/
theorem getNextLoop_eq (p : PreparedState) :
    ∀ (rows : List RowCells) (cap ne : Nat),
    getNextLoop p (cap + 1) ne rows =
      ((rows.take (cap + 1)).map (fun r => (processRow p r).1),
       ne + (rows.take (cap + 1)).countP (fun r => (processRow p r).2),
       decide (rows.length < cap + 1),
       rows.drop (cap + 1)) := by
  intro rows
  induction rows with
  | nil =>
    intro cap ne
    simp [getNextLoop]
  | cons r rest ih =>
    intro cap ne
    cases cap with
    | zero =>
      simp only [getNextLoop, Nat.zero_add, if_pos (le_refl 1)]
      cases hpr : (processRow p r).2 <;>
        simp [hpr, List.countP_cons, Nat.lt_succ_iff]
    | succ c =>
      have hif : ¬ (c + 1 + 1 ≤ 1) := by omega
      simp only [getNextLoop, if_neg hif]
      have hsub : c + 1 + 1 - 1 = c + 1 := by omega
      rw [hsub, ih c]
      cases hpr : (processRow p r).2 <;>
        simp [hpr, List.countP_cons, List.take_succ_cons, List.drop_succ_cons,
          Nat.succ_lt_succ_iff] <;> omega

/-- Closed form of `GetNext` on an opened node with positive capacity. -/
theorem GetNext_eq (s : HBaseScanNode) (p : PreparedState)
    (hph : s.phase = .opened) (hp : s.prep = some p) (hcap : 1 ≤ p.capacity) :
    HBaseScanNode.GetNext s = .ok
      ({ s with rows := s.rows.drop p.capacity,
                num_errors_ := s.num_errors_ +
                  (s.rows.take p.capacity).countP (fun r => (processRow p r).2),
                pool_allocated := true },
       (s.rows.take p.capacity).map (fun r => (processRow p r).1),
       decide (s.rows.length < p.capacity)) := by
  unfold HBaseScanNode.GetNext
  rw [hph, hp]
  simp only
  rw [if_neg (by omega)]
  obtain ⟨c, hc⟩ : ∃ c, p.capacity = c + 1 := ⟨p.capacity - 1, by omega⟩
  rw [hc, getNextLoop_eq p s.rows c s.num_errors_]

/-- `lexLt` is irreflexive. -/
theorem lexLt_irrefl (a : FamQual) : ¬ lexLt a a := by
  simp [lexLt]

/-- C1: for every valid Prepare input (a created node, a table catalog
whose non-key columns are listed in strictly ascending (family, qualifier)
order, so that the column position is the spec's "stable key derived from
(family, qualifier)"), a successful Prepare leaves the Column Order List
`sorted_cols_` sorted strictly ascending by (family, qualifier) with
lexicographic tie-break on family then qualifier, duplicate-free, and
`sorted_non_key_slots_` holding exactly the requested non-key slots; and
Prepare fails with `SchemaError` whenever two requested non-key columns
resolve to the same (family, qualifier) pair. -/
theorem prepare_column_order_list (cols : List FamQual)
    (slots : List SlotDescriptor) (layout_size tuple_size batch_size : Nat)
    (s : HBaseScanNode) (hph : s.phase = .created)
    (hsorted : ∀ i j : Nat, 1 ≤ i → i < j → j < cols.length →
      lexLt (cols.getD i ("", "")) (cols.getD j ("", ""))) :
    (∀ s1, HBaseScanNode.Prepare cols slots layout_size tuple_size batch_size s
        = .ok s1 →
      ∃ q, s1.prep = some q ∧
        q.sorted_cols_.Pairwise lexLt ∧
        q.sorted_cols_.Nodup ∧
        List.Perm q.sorted_non_key_slots_
          (slots.filter (fun sl => decide (sl.col_pos ≠ ROW_KEY))))
    ∧
    (∀ a b : SlotDescriptor, List.Sublist [a, b] slots →
      a.col_pos ≠ ROW_KEY → b.col_pos ≠ ROW_KEY →
      colOf cols a = colOf cols b →
      HBaseScanNode.Prepare cols slots layout_size tuple_size batch_size s =
        .error .SchemaError) := by
  constructor
  · intro s1 h
    obtain ⟨-, -, hall, hnd, hs1⟩ := Prepare_ok_elim h
    subst hs1
    set nk := slots.filter (fun sl => decide (sl.col_pos ≠ ROW_KEY)) with hnk
    have hperm := sortByColPos_perm nk
    have hmem_facts : ∀ a ∈ sortByColPos nk,
        a.col_pos ≠ ROW_KEY ∧ a.col_pos < cols.length := by
      intro a ha
      have ha1 : a ∈ nk := hperm.mem_iff.mp ha
      have ha2 : a ∈ slots := List.mem_of_mem_filter ha1
      have ha3 : a.col_pos ≠ ROW_KEY := by
        have := List.of_mem_filter ha1
        simpa using this
      have ha4 : a.col_pos < cols.length := by
        have := List.all_eq_true.mp hall a ha2
        simpa using this
      exact ⟨ha3, ha4⟩
    have hle : (sortByColPos nk).Pairwise leCP := sortByColPos_pairwise nk
    have hmapnd : ((sortByColPos nk).map (fun sl => sl.col_pos)).Nodup := by
      have hsl : List.Sublist nk slots := List.filter_sublist slots
      have hsl2 : List.Sublist (nk.map (fun sl => sl.col_pos))
          (slots.map (fun sl => sl.col_pos)) := hsl.map _
      have hnknd : (nk.map (fun sl => sl.col_pos)).Nodup := hnd.sublist hsl2
      exact ((hperm.map (fun sl => sl.col_pos)).nodup_iff).mpr hnknd
    have hpneq : (sortByColPos nk).Pairwise
        (fun a b => a.col_pos ≠ b.col_pos) := by
      have := List.pairwise_map.mp hmapnd
      exact this
    have hplt : (sortByColPos nk).Pairwise
        (fun a b => a.col_pos < b.col_pos) :=
      (hle.and hpneq).imp (fun h => lt_of_le_of_ne h.1 h.2)
    have hkey : ((sortByColPos nk).map (colOf cols)).Pairwise lexLt := by
      rw [List.pairwise_map]
      refine List.Pairwise.imp_of_mem ?_ hplt
      intro a b ha hb hlt
      obtain ⟨ha0, _⟩ := hmem_facts a ha
      obtain ⟨_, hb1⟩ := hmem_facts b hb
      exact hsorted a.col_pos b.col_pos (by unfold ROW_KEY at ha0; omega) hlt hb1
    have hnodup : ((sortByColPos nk).map (colOf cols)).Nodup := by
      refine hkey.imp ?_
      intro a b hab heq
      rw [heq] at hab
      exact lexLt_irrefl _ hab
    exact ⟨_, rfl, hkey, hnodup, sortByColPos_perm _⟩
  · intro a b hsub hanz hbnz hcol
    unfold HBaseScanNode.Prepare
    rw [if_neg (by simp [hph])]
    by_cases h2 : tuple_size = 0
    · rw [if_pos h2]
    · rw [if_neg h2]
      by_cases h3 : (slots.all (fun sl => decide (sl.col_pos < cols.length))) = false
      · rw [if_pos h3]
      · have hall : (slots.all (fun sl => decide (sl.col_pos < cols.length))) = true := by
          cases hx : (slots.all (fun sl => decide (sl.col_pos < cols.length)))
          · exact absurd hx h3
          · rfl
        rw [if_neg h3]
        have hnotnd : ¬ (slots.map (fun sl => sl.col_pos)).Nodup := by
          intro hnd
          have hmapsub : List.Sublist ([a, b].map (fun sl => sl.col_pos))
              (slots.map (fun sl => sl.col_pos)) := hsub.map _
          have hpairnd : ([a.col_pos, b.col_pos] : List Nat).Nodup :=
            hnd.sublist (by simpa using hmapsub)
          have hne : a.col_pos ≠ b.col_pos := by
            simp at hpairnd
            exact hpairnd
          have hamem : a ∈ slots := hsub.subset (by simp)
          have hbmem : b ∈ slots := hsub.subset (by simp)
          have halt : a.col_pos < cols.length := by
            have := List.all_eq_true.mp hall a hamem
            simpa using this
          have hblt : b.col_pos < cols.length := by
            have := List.all_eq_true.mp hall b hbmem
            simpa using this
          rcases Nat.lt_trichotomy a.col_pos b.col_pos with hlt | heq | hgt
          · have := hsorted a.col_pos b.col_pos
              (by unfold ROW_KEY at hanz; omega) hlt hblt
            rw [show cols.getD a.col_pos ("", "") = colOf cols a from rfl,
              show cols.getD b.col_pos ("", "") = colOf cols b from rfl, hcol] at this
            exact lexLt_irrefl _ this
          · exact hne heq
          · have := hsorted b.col_pos a.col_pos
              (by unfold ROW_KEY at hbnz; omega) hgt halt
            rw [show cols.getD a.col_pos ("", "") = colOf cols a from rfl,
              show cols.getD b.col_pos ("", "") = colOf cols b from rfl, hcol] at this
            exact lexLt_irrefl _ this
        rw [if_neg hnotnd]

/-- C10: after a successful Prepare the two sorted lists are aligned and
partition the requested slots: they have equal length, `sorted_cols_[i]`
is the (family, qualifier) pair the slot `sorted_non_key_slots_[i]`
resolves to, no slot with column position `ROW_KEY` (0) occurs in
`sorted_non_key_slots_`, `row_key_slot_` carries a requested slot with
column position 0 when it is set, and it is `none` exactly when no such
slot was requested. -/
theorem prepare_lists_aligned (cols : List FamQual)
    (slots : List SlotDescriptor) (layout_size tuple_size batch_size : Nat)
    (s s1 : HBaseScanNode)
    (h : HBaseScanNode.Prepare cols slots layout_size tuple_size batch_size s
      = .ok s1) :
    ∃ q, s1.prep = some q ∧
      q.sorted_cols_.length = q.sorted_non_key_slots_.length ∧
      (∀ i : Nat, q.sorted_cols_.get? i =
        (q.sorted_non_key_slots_.get? i).map (colOf cols)) ∧
      (∀ sl ∈ q.sorted_non_key_slots_, sl.col_pos ≠ ROW_KEY) ∧
      (∀ k, q.row_key_slot_ = some k → k ∈ slots ∧ k.col_pos = ROW_KEY) ∧
      (q.row_key_slot_ = none → ∀ sl ∈ slots, sl.col_pos ≠ ROW_KEY) := by
  obtain ⟨-, -, -, -, hs1⟩ := Prepare_ok_elim h
  subst hs1
  refine ⟨_, rfl, ?_, ?_, ?_, ?_, ?_⟩
  · simp [preparedOf]
  · intro i
    simp [preparedOf, List.get?_map]
  · intro sl hsl
    have h1 : sl ∈ slots.filter (fun sl => decide (sl.col_pos ≠ ROW_KEY)) :=
      (sortByColPos_perm _).mem_iff.mp hsl
    have := List.of_mem_filter h1
    simpa using this
  · intro k hk
    simp only [preparedOf] at hk
    refine ⟨List.mem_of_find?_eq_some hk, ?_⟩
    have := List.find?_some hk
    simpa using this
  · intro hnone sl hsl
    simp only [preparedOf] at hnone
    have := List.find?_eq_none.mp hnone sl hsl
    simpa using this

/-- C2: within one `GetNext` call the Error Counter grows by exactly the
number of processed rows that contained at least one failed value
conversion — one per such row however many values in it failed, zero for a
row whose targeted values all converted; the per-row error flag computed
by the conversion loop coincides with `rowHasMalformed`. -/
theorem getNext_error_counter_per_row (s : HBaseScanNode) (p : PreparedState)
    (r : RowCells) (hph : s.phase = .opened) (hp : s.prep = some p)
    (hcap : 1 ≤ p.capacity) :
    ∃ s' batch eos, HBaseScanNode.GetNext s = .ok (s', batch, eos) ∧
      s'.num_errors_ = s.num_errors_ +
        (s.rows.take p.capacity).countP (fun r => rowHasMalformed p r) ∧
      (processRow p r).2 = rowHasMalformed p r := by
  refine ⟨_, _, _, GetNext_eq s p hph hp hcap, ?_, processRow_snd p r⟩
  simp only
  congr 1
  exact List.countP_congr (fun r _ => by rw [processRow_snd])

/-- C3: per-value conversion failures never fail a `GetNext` call: on an
opened node with positive capacity `GetNext` succeeds, every row pulled
from the scanner — malformed values or not — is committed to the batch as
one converted tuple, and a failed conversion writes the null/invalid
marker into its slot while raising only the per-row error flag. -/
theorem getNext_tolerates_malformed (s : HBaseScanNode) (p : PreparedState)
    (t : Tuple) (slot : SlotDescriptor) (raw : String) (e : Bool)
    (hph : s.phase = .opened) (hp : s.prep = some p) (hcap : 1 ≤ p.capacity)
    (hconv : Convert raw slot.ty = none) :
    ∃ s' batch eos, HBaseScanNode.GetNext s = .ok (s', batch, eos) ∧
      batch = (s.rows.take p.capacity).map (fun r => (processRow p r).1) ∧
      batch.length = min p.capacity s.rows.length ∧
      WriteTextSlot t slot raw e = (t.set slot.id SlotVal.null, true) := by
  refine ⟨_, _, _, GetNext_eq s p hph hp hcap, rfl, ?_, ?_⟩
  · simp [List.length_take]
  · simp [WriteTextSlot, hconv]

/-- C4: the batch capacity law.  A returned batch never holds more rows
than the capacity derived at Prepare from the configured maximum batch
size and the tuple size (`capacity = batch_size / tuple_size`, and
`tuple_buffer_size_ = capacity * tuple_size`); when the capacity is
reached while rows remain the batch comes back with `end_of_stream =
false`, and a batch returned with `end_of_stream = false` is completely
full — only the final batch, before `end_of_stream = true`, may be
partially filled. -/
theorem getNext_batch_capacity (s : HBaseScanNode) (p : PreparedState)
    (cols : List FamQual) (slots : List SlotDescriptor)
    (layout_size tuple_size batch_size : Nat) (s0 s1 : HBaseScanNode)
    (hph : s.phase = .opened) (hp : s.prep = some p) (hcap : 1 ≤ p.capacity)
    (hprep : HBaseScanNode.Prepare cols slots layout_size tuple_size batch_size
      s0 = .ok s1) :
    (∃ s' batch eos, HBaseScanNode.GetNext s = .ok (s', batch, eos) ∧
      batch.length ≤ p.capacity ∧
      (eos = false → batch.length = p.capacity) ∧
      (p.capacity ≤ s.rows.length → eos = false)) ∧
    (∃ q, s1.prep = some q ∧ q.capacity = batch_size / tuple_size ∧
      q.tuple_buffer_size_ = q.capacity * tuple_size) := by
  constructor
  · refine ⟨_, _, _, GetNext_eq s p hph hp hcap, ?_, ?_, ?_⟩
    · simp [List.length_take]
    · intro heos
      simp only [decide_eq_false_iff_not, Nat.not_lt] at heos
      simp [List.length_take, Nat.min_eq_left heos]
    · intro hlen
      simp only [decide_eq_false_iff_not, Nat.not_lt]
      exact hlen
  · obtain ⟨-, -, -, -, hs1⟩ := Prepare_ok_elim hprep
    subst hs1
    exact ⟨_, rfl, rfl, rfl⟩

/-- C6: a node prepared from fresh and opened without any `SetScanRange`
call (zero scan ranges) answers its first `GetNext` with an empty batch
and `end_of_stream = true`, and the Error Counter is 0. -/
theorem getNext_zero_scan_ranges (cols : List FamQual)
    (slots : List SlotDescriptor) (layout_size tuple_size batch_size : Nat)
    (store_ok : Bool) (s1 s2 : HBaseScanNode)
    (hprep : HBaseScanNode.Prepare cols slots layout_size tuple_size batch_size
      mkNode = .ok s1)
    (hopen : HBaseScanNode.Open store_ok s1 = .ok s2)
    (hcap : 1 ≤ batch_size / tuple_size) :
    ∃ s3, HBaseScanNode.GetNext s2 = .ok (s3, ([] : List Tuple), true) ∧
      s3.num_errors_ = 0 ∧ s2.num_errors_ = 0 := by
  obtain ⟨-, -, -, -, hs1⟩ := Prepare_ok_elim hprep
  obtain ⟨-, -, hs2⟩ := Open_ok_elim hopen
  have hphase : s2.phase = .opened := by rw [hs2]
  have hpr : s2.prep =
      some (preparedOf cols slots layout_size tuple_size batch_size) := by
    rw [hs2, hs1]
  have hrows : s2.rows = [] := by
    rw [hs2, hs1]
    simp [mkNode]
  have hne : s2.num_errors_ = 0 := by
    rw [hs2, hs1]
    simp [mkNode]
  have hcap2 : 1 ≤ (preparedOf cols slots layout_size tuple_size
      batch_size).capacity := by
    simpa [preparedOf] using hcap
  have h := GetNext_eq s2 _ hphase hpr hcap2
  rw [hrows] at h
  simp only [List.take_nil, List.drop_nil, List.map_nil, List.countP_nil,
    Nat.add_zero, List.length_nil] at h
  have heos : decide (0 < (preparedOf cols slots layout_size tuple_size
      batch_size).capacity) = true := by
    simp only [decide_eq_true_eq]
    omega
  rw [heos] at h
  exact ⟨_, h, by simp [hne], hne⟩

/-- C7: for every row, the tuple emitted by the conversion loop used by
`GetNext` carries in the row-key slot exactly the row's key bytes pushed
through the same conversion path (`WriteTextSlot`/`Convert`) as every
other value; for a string-typed row-key slot that is the key bytes
verbatim. -/
theorem getNext_row_key_verbatim (s : HBaseScanNode) (p : PreparedState)
    (ks : SlotDescriptor) (r : RowCells) (hph : s.phase = .opened)
    (hp : s.prep = some p) (hcap : 1 ≤ p.capacity)
    (hk : p.row_key_slot_ = some ks) (hid : ks.id < p.layout_size) :
    ∃ s' batch eos, HBaseScanNode.GetNext s = .ok (s', batch, eos) ∧
      batch = (s.rows.take p.capacity).map (fun r => (processRow p r).1) ∧
      ((processRow p r).1).get? ks.id =
        some (match Convert r.key ks.ty with
              | some v => v
              | none => SlotVal.null) ∧
      (ks.ty = .tString →
        ((processRow p r).1).get? ks.id = some (.strV r.key)) := by
  have hlen : (processCells (bindings p) r.cells
      (List.replicate p.layout_size SlotVal.null, false)).1.length =
      p.layout_size := by
    rw [processCells_length]
    simp
  have hmain : ((processRow p r).1).get? ks.id =
      some (match Convert r.key ks.ty with
            | some v => v
            | none => SlotVal.null) := by
    unfold processRow
    rw [hk]
    simp only [WriteTextSlot]
    cases hc : Convert r.key ks.ty with
    | none =>
      simp only
      exact List.get?_set_eq_of_lt _ (by rw [hlen]; exact hid)
    | some v =>
      simp only
      exact List.get?_set_eq_of_lt _ (by rw [hlen]; exact hid)
  refine ⟨_, _, _, GetNext_eq s p hph hp hcap, rfl, hmain, ?_⟩
  intro hty
  rw [hmain, hty]
  simp [Convert]

/-- C8: projection.  A cell whose (family, qualifier) is bound to no entry
of the Column Order List is skipped silently by the conversion loop: with
the cell removed the row produces the identical tuple and identical
per-row error flag, so the cell contributes to no slot, raises no error
and leaves the Error Counter unaffected. -/
theorem getNext_projection_skip (p : PreparedState) (c : Cell) (key : String)
    (pre post : List Cell) (hc : c.1 ∉ p.sorted_cols_) :
    processRow p ⟨key, pre ++ c :: post⟩ = processRow p ⟨key, pre ++ post⟩ ∧
    rowHasMalformed p ⟨key, pre ++ c :: post⟩ =
      rowHasMalformed p ⟨key, pre ++ post⟩ := by
  have hfind : findSlotFor (bindings p) c.1 = none := by
    unfold findSlotFor
    rw [List.find?_eq_none.mpr]
    · rfl
    · intro b hb
      have hb2 : b.2 ∈ p.sorted_cols_ := (List.of_mem_zip hb).2
      simp only [decide_eq_true_eq]
      intro heq
      exact hc (heq ▸ hb2)
  have hcells : ∀ acc, processCells (bindings p) (pre ++ c :: post) acc =
      processCells (bindings p) (pre ++ post) acc := by
    intro acc
    unfold processCells
    rw [List.foldl_append, List.foldl_append, List.foldl_cons]
    congr 1
    simp [processCell, hfind]
  have heq : processRow p ⟨key, pre ++ c :: post⟩ =
      processRow p ⟨key, pre ++ post⟩ := by
    simp only [processRow]
    rw [hcells]
  exact ⟨heq, by rw [← processRow_snd, ← processRow_snd, heq]⟩

/-- A successful `SetScanRange` only appends the range. -/
theorem SetScanRange_ok_elim {r : ScanRange} {s s' : HBaseScanNode}
    (h : HBaseScanNode.SetScanRange r s = .ok s') :
    s' = { s with scan_range_vector_ := s.scan_range_vector_ ++ [r] } := by
  unfold HBaseScanNode.SetScanRange at h
  by_cases h1 : s.phase = .created ∨ s.phase = .prepared
  · rw [if_pos h1] at h
    exact (Except.ok.injEq _ _).mp h.symm
  · rw [if_neg h1] at h
    exact absurd h (by simp)

/-- The filling loop never decreases the error counter. -/
theorem getNextLoop_ne_mono (p : PreparedState) :
    ∀ (rows : List RowCells) (cap ne : Nat),
    ne ≤ (getNextLoop p cap ne rows).2.1 := by
  intro rows
  induction rows with
  | nil => intro cap ne; simp [getNextLoop]
  | cons r rest ih =>
    intro cap ne
    simp only [getNextLoop]
    by_cases h : cap ≤ 1
    · rw [if_pos h]
      cases (processRow p r).2 <;> simp
    · rw [if_neg h]
      have h1 : ne ≤ (if (processRow p r).2 then ne + 1 else ne) := by
        cases (processRow p r).2 <;> simp
      exact le_trans h1 (ih (cap - 1) _)

/-- C5: `Close` is idempotent.  It always returns success — in particular
when called a second time or on a node that was never opened (a fresh
`mkNode`) — it performs at most one pool release, and a second `Close`
performs none, so pooled memory is never freed twice; the error counter
survives the first `Close` unchanged. -/
theorem close_idempotent_no_double_free (s : HBaseScanNode) :
    (HBaseScanNode.Close s).status = Except.ok () ∧
    (HBaseScanNode.Close (HBaseScanNode.Close s).state).status = Except.ok () ∧
    (HBaseScanNode.Close s).frees ≤ 1 ∧
    (HBaseScanNode.Close (HBaseScanNode.Close s).state).frees = 0 ∧
    (HBaseScanNode.Close mkNode).frees = 0 ∧
    (HBaseScanNode.Close s).state.num_errors_ = s.num_errors_ := by
  refine ⟨rfl, rfl, ?_, rfl, rfl, rfl⟩
  unfold HBaseScanNode.Close
  cases s.pool_allocated <;> simp

/-- What a successful `GetNext` tells us about the node it ran on and the
error counter it produced. -/
theorem GetNext_ok_elim {s : HBaseScanNode}
    {res : HBaseScanNode × List Tuple × Bool}
    (h : HBaseScanNode.GetNext s = .ok res) :
    ∃ p, s.prep = some p ∧ s.phase = .opened ∧ ¬ p.capacity = 0 ∧
      res.1.num_errors_ = (getNextLoop p p.capacity s.num_errors_ s.rows).2.1 := by
  unfold HBaseScanNode.GetNext at h
  split at h
  next p hph hpr =>
    by_cases hc : p.capacity = 0
    · rw [if_pos hc] at h
      exact absurd h (by simp)
    · rw [if_neg hc] at h
      have hres := (Except.ok.injEq _ _).mp h
      exact ⟨p, hpr, hph, hc, by rw [← hres]⟩
  next x y hny =>
    exact absurd h (by simp)

/-- C9: the Error Counter is monotonically non-decreasing across every
operation of one scan node instance — no operation (Prepare, SetScanRange,
Open, GetNext, Close), successful or failing, ever decreases or resets it
— and `Close` surfaces its final value as an observation while returning
success, never as a call failure. -/
theorem error_counter_monotone (op : NodeOp) (s : HBaseScanNode) :
    s.num_errors_ ≤ (stepNode op s).num_errors_ ∧
    (HBaseScanNode.Close s).reported_errors = s.num_errors_ ∧
    (HBaseScanNode.Close s).status = Except.ok () := by
  refine ⟨?_, rfl, rfl⟩
  cases op with
  | prepareOp cols slots l t b =>
    simp only [stepNode]
    cases h : HBaseScanNode.Prepare cols slots l t b s with
    | error e => exact le_refl _
    | ok s' =>
      obtain ⟨-, -, -, -, hs'⟩ := Prepare_ok_elim h
      rw [hs']
  | setScanRangeOp r =>
    simp only [stepNode]
    cases h : HBaseScanNode.SetScanRange r s with
    | error e => exact le_refl _
    | ok s' =>
      rw [SetScanRange_ok_elim h]
  | openOp store_ok =>
    simp only [stepNode]
    cases h : HBaseScanNode.Open store_ok s with
    | error e => exact le_refl _
    | ok s' =>
      obtain ⟨-, -, hs'⟩ := Open_ok_elim h
      rw [hs']
  | getNextOp =>
    simp only [stepNode]
    cases h : HBaseScanNode.GetNext s with
    | error e => exact le_refl _
    | ok res =>
      obtain ⟨p, -, -, -, hne⟩ := GetNext_ok_elim h
      rw [hne]
      exact getNextLoop_ne_mono p s.rows p.capacity s.num_errors_
  | closeOp =>
    simp only [stepNode, HBaseScanNode.Close]
    exact le_refl _

/-- The fixture catalog is strictly (family, qualifier)-sorted from
position 1 on. -/
theorem wCols_sorted : ∀ i j : Nat, 1 ≤ i → i < j → j < wCols.length →
    lexLt (wCols.getD i ("", "")) (wCols.getD j ("", "")) := by
  intro i j h1 h2 h3
  have hl : wCols.length = 3 := by rfl
  rw [hl] at h3
  have hi : i = 1 := by omega
  have hj : j = 2 := by omega
  subst hi
  subst hj
  show lexLt ("cf", "a") ("cf", "b")
  refine Or.inr ⟨rfl, ?_⟩
  rw [String.lt_iff_toList_lt]
  decide

/-- Witness for C1 at the fixture inputs: the good request yields a
sorted, duplicate-free Column Order List, and the colliding request is a
`SchemaError`. -/
theorem prepare_column_order_list_witness :
    (∃ q, wPrep1.prep = some q ∧
      q.sorted_cols_.Pairwise lexLt ∧
      q.sorted_cols_.Nodup ∧
      List.Perm q.sorted_non_key_slots_
        (wSlots.filter (fun sl => decide (sl.col_pos ≠ ROW_KEY)))) ∧
    HBaseScanNode.Prepare wCols wSlotsDup 3 8 64 mkNode =
      .error .SchemaError := by
  constructor
  · exact (prepare_column_order_list wCols wSlots 3 8 64 mkNode rfl
      wCols_sorted).1 wPrep1 rfl
  · exact (prepare_column_order_list wCols wSlotsDup 3 8 64 mkNode rfl
      wCols_sorted).2 ⟨1, 1, .tInt⟩ ⟨2, 1, .tString⟩ (List.Sublist.refl _)
      (by decide) (by decide) rfl

/-- Witness for C2 at the fixture inputs. -/
theorem getNext_error_counter_per_row_witness :
    ∃ s' batch eos, HBaseScanNode.GetNext wOpen1 = .ok (s', batch, eos) ∧
      s'.num_errors_ = wOpen1.num_errors_ +
        (wOpen1.rows.take wQ.capacity).countP (fun r => rowHasMalformed wQ r) ∧
      (processRow wQ wRow2).2 = rowHasMalformed wQ wRow2 :=
  getNext_error_counter_per_row wOpen1 wQ wRow2 rfl rfl (by decide)

/-- Witness for C3 at the fixture inputs. -/
theorem getNext_tolerates_malformed_witness :
    ∃ s' batch eos, HBaseScanNode.GetNext wOpen1 = .ok (s', batch, eos) ∧
      batch = (wOpen1.rows.take wQ.capacity).map (fun r => (processRow wQ r).1) ∧
      batch.length = min wQ.capacity wOpen1.rows.length ∧
      WriteTextSlot [SlotVal.null, SlotVal.null, SlotVal.null] ⟨1, 1, .tInt⟩
        "bad" false =
        ([SlotVal.null, SlotVal.null, SlotVal.null].set 1 SlotVal.null, true) :=
  getNext_tolerates_malformed wOpen1 wQ [SlotVal.null, SlotVal.null, SlotVal.null]
    ⟨1, 1, .tInt⟩ "bad" false rfl rfl (by decide) (by decide)

/-- Witness for C4 at the fixture inputs. -/
theorem getNext_batch_capacity_witness :
    (∃ s' batch eos, HBaseScanNode.GetNext wOpen1 = .ok (s', batch, eos) ∧
      batch.length ≤ wQ.capacity ∧
      (eos = false → batch.length = wQ.capacity) ∧
      (wQ.capacity ≤ wOpen1.rows.length → eos = false)) ∧
    (∃ q, wPrep1.prep = some q ∧ q.capacity = 64 / 8 ∧
      q.tuple_buffer_size_ = q.capacity * 8) :=
  getNext_batch_capacity wOpen1 wQ wCols wSlots 3 8 64 mkNode wPrep1
    rfl rfl (by decide) rfl

/-- Witness for C6 at the fixture inputs. -/
theorem getNext_zero_scan_ranges_witness :
    ∃ s3, HBaseScanNode.GetNext wOpen0 = .ok (s3, ([] : List Tuple), true) ∧
      s3.num_errors_ = 0 ∧ wOpen0.num_errors_ = 0 :=
  getNext_zero_scan_ranges wCols wSlots 3 8 64 true wPrep1 wOpen0 rfl rfl
    (by decide)

/-- Witness for C7 at the fixture inputs. -/
theorem getNext_row_key_verbatim_witness :
    ∃ s' batch eos, HBaseScanNode.GetNext wOpen1 = .ok (s', batch, eos) ∧
      batch = (wOpen1.rows.take wQ.capacity).map (fun r => (processRow wQ r).1) ∧
      ((processRow wQ wRow1).1).get? 0 =
        some (match Convert wRow1.key SlotType.tString with
              | some v => v
              | none => SlotVal.null) ∧
      (SlotType.tString = SlotType.tString →
        ((processRow wQ wRow1).1).get? 0 = some (.strV wRow1.key)) :=
  getNext_row_key_verbatim wOpen1 wQ ⟨0, 0, .tString⟩ wRow1 rfl rfl (by decide)
    rfl (by decide)

/-- Witness for C8 at the fixture inputs: a `zz:q` cell, bound to no
requested column, changes neither the tuple nor the row's error status. -/
theorem getNext_projection_skip_witness :
    processRow wQ ⟨"r", [(("cf", "a"), "7"), (("zz", "q"), "v")]⟩ =
      processRow wQ ⟨"r", [(("cf", "a"), "7")]⟩ ∧
    rowHasMalformed wQ ⟨"r", [(("cf", "a"), "7"), (("zz", "q"), "v")]⟩ =
      rowHasMalformed wQ ⟨"r", [(("cf", "a"), "7")]⟩ :=
  getNext_projection_skip wQ (("zz", "q"), "v") "r" [(("cf", "a"), "7")] []
    (by decide)

/-- Witness for C10 at the fixture inputs. -/
theorem prepare_lists_aligned_witness :
    ∃ q, wPrep1.prep = some q ∧
      q.sorted_cols_.length = q.sorted_non_key_slots_.length ∧
      (∀ i : Nat, q.sorted_cols_.get? i =
        (q.sorted_non_key_slots_.get? i).map (colOf wCols)) ∧
      (∀ sl ∈ q.sorted_non_key_slots_, sl.col_pos ≠ ROW_KEY) ∧
      (∀ k, q.row_key_slot_ = some k → k ∈ wSlots ∧ k.col_pos = ROW_KEY) ∧
      (q.row_key_slot_ = none → ∀ sl ∈ wSlots, sl.col_pos ≠ ROW_KEY) :=
  prepare_lists_aligned wCols wSlots 3 8 64 mkNode wPrep1 rfl

end Impala
